import Mathlib

/-!
Shallow embedding of the plan application pipeline in `nomad/plan_apply.go`
(package `nomad`): the plan evaluator `evaluatePlan`, the consensus helper
`applyPlan`, and one iteration of the applier loop `planApply`.

Go maps are embedded as association lists (a faithful embedding of a Go map
has no duplicate keys; lemmas that need this take a `Nodup` hypothesis).
Go `(value, error)` pairs are embedded as `Option value × Option EvalErr`,
mirroring the two return slots literally.  `uint64` indices are `Nat`: the
code only compares and maxes them, so no overflow arithmetic occurs.
-/

/-- An allocation.  The core only reads its `ID`; the resource fields are
consumed by the external fit predicate and are collapsed to one `Nat`. -/
structure Allocation where
  id : String
  resources : Nat
deriving DecidableEq, Repr

/-- A node: an ID plus the capacity data the external fit predicate reads. -/
structure Node where
  id : String
  resources : Nat
deriving DecidableEq, Repr

/-- A consistent snapshot of cluster state.  Each read returns `none` on a
lookup error, mirroring the Go `(value, err)` pair. -/
structure Snapshot where
  getNodeByID : String → Option Node
  allocsByNode : String → Option (List Allocation)
  getIndex : String → Option Nat

/-- A plan submitted by a scheduler (`structs.Plan`). -/
structure Plan where
  nodeAllocation : List (String × List Allocation)
  nodeEvict : List (String × List String)
  allAtOnce : Bool

/-- The result of evaluating a plan (`structs.PlanResult`).  The Go struct
is created with empty maps and zero-valued `RefreshIndex`/`AllocIndex`. -/
structure PlanResult where
  nodeEvict : List (String × List String)
  nodeAllocation : List (String × List Allocation)
  refreshIndex : Nat
  allocIndex : Nat
deriving DecidableEq, Repr

/-- The flat consensus payload (`structs.AllocUpdateRequest`). -/
structure AllocUpdateRequest where
  evict : List String
  alloc : List Allocation
deriving DecidableEq, Repr

/-- The error cases `evaluatePlan` and `applyPlan` can surface, one per
`return nil, err` site in the Go source. -/
inductive EvalErr where
  | snapshotFailed
  | nodeLookupFailed (nodeID : String)
  | allocLookupFailed (nodeID : String)
  | indexLookupFailed (table : String)
  | raftFailed
deriving DecidableEq, Repr

/-- Association-list lookup, the embedding of Go map indexing `m[k]`. -/
def assocLookup {β : Type} (m : List (String × β)) (k : String) : Option β :=
  match m with
  | [] => none
  | (k', v) :: rest => if k' = k then some v else assocLookup rest k

/-- Modelled from the spec: `structs.RemoveAllocs` is repository code that is
not under `src/`; per the spec it removes from the allocation list every
allocation whose ID appears in the eviction list. -/
def RemoveAllocs (allocs : List Allocation) (evictions : List String) :
    List Allocation :=
  allocs.filter (fun a => !(evictions.contains a.id))

/-- Modelled from the spec: the helper `maxUint64` is repository code not
under `src/`; per the spec it is the maximum of two indices. -/
def maxUint64 (a b : Nat) : Nat :=
  if a ≥ b then a else b

/-- The leader server, restricted to the fields `planApply`, `evaluatePlan`
and `applyPlan` consult: the snapshot acquired from `s.fsm.State()`, the
external pure predicate `AllocationsFit`, and the consensus submission
`raftApply` (returning the assigned log index, or `none` on failure). -/
structure Server where
  snapshot : Option Snapshot
  fit : Node → List Allocation → Bool
  raft : AllocUpdateRequest → Option Nat

/-- The proposed allocation set for one node, exactly as computed in the loop
body of `evaluatePlan`: start from the existing allocations, call
`RemoveAllocs` only when the eviction list is non-empty, then append the
planned allocations. -/
def proposedAllocs (existingAlloc : List Allocation) (evictions : List String)
    (allocList : List Allocation) : List Allocation :=
  let proposed :=
    if evictions.length > 0 then RemoveAllocs existingAlloc evictions
    else existingAlloc
  proposed ++ allocList

/-- The per-node loop of `evaluatePlan`, iterating the entries of
`plan.NodeAllocation` and threading the `result` accumulator.  Every exit
mirrors a `return` statement of the Go source. -/
def evalLoop (snap : Snapshot) (fit : Node → List Allocation → Bool)
    (plan : Plan) (entries : List (String × List Allocation))
    (result : PlanResult) : Option PlanResult × Option EvalErr :=
  match entries with
  | [] => (some result, none)
  | (nodeID, allocList) :: rest =>
    match snap.getNodeByID nodeID with
    | none => (none, some (.nodeLookupFailed nodeID))
    | some node =>
      match snap.allocsByNode nodeID with
      | none => (none, some (.allocLookupFailed nodeID))
      | some existingAlloc =>
        let evictions := (assocLookup plan.nodeEvict nodeID).getD []
        let proposed := proposedAllocs existingAlloc evictions allocList
        if !(fit node proposed) then
          match snap.getIndex "allocs" with
          | none => (none, some (.indexLookupFailed "allocs"))
          | some allocIndex =>
            match snap.getIndex "node" with
            | none => (none, some (.indexLookupFailed "node"))
            | some nodeIndex =>
              let result' :=
                { result with refreshIndex := maxUint64 nodeIndex allocIndex }
              if plan.allAtOnce then (some result', none)
              else evalLoop snap fit plan rest result'
        else
          let result' :=
            if evictions.length > 0 then
              { result with nodeEvict := result.nodeEvict ++ [(nodeID, evictions)] }
            else result
          let result'' :=
            if allocList.length > 0 then
              { result' with
                nodeAllocation := result'.nodeAllocation ++ [(nodeID, allocList)] }
            else result'
          evalLoop snap fit plan rest result''

/-- `evaluatePlan`: snapshot the state, then run the per-node loop starting
from a result with empty maps and zero indices. -/
def evaluatePlan (s : Server) (plan : Plan) :
    Option PlanResult × Option EvalErr :=
  match s.snapshot with
  | none => (none, some .snapshotFailed)
  | some snap =>
    evalLoop snap s.fit plan plan.nodeAllocation
      { nodeEvict := [], nodeAllocation := [], refreshIndex := 0, allocIndex := 0 }

/-- `applyPlan`: concatenate the per-node evict and alloc lists into a flat
`AllocUpdateRequest` and submit it through `raftApply`. -/
def applyPlan (s : Server) (result : PlanResult) : Option Nat :=
  let req : AllocUpdateRequest :=
    { evict := result.nodeEvict.foldl (fun acc p => acc ++ p.2) []
      alloc := result.nodeAllocation.foldl (fun acc p => acc ++ p.2) [] }
  s.raft req

/-- One iteration of the `planApply` loop body for a dequeued pending plan,
returning the list of `respond` calls it makes (each as the Go argument pair
`(result, err)`).  The `(none, none)` case of `evaluatePlan` is unreachable
(proved below) and is mapped to no response. -/
def planApplyIter (s : Server) (plan : Plan) :
    List (Option PlanResult × Option EvalErr) :=
  match evaluatePlan s plan with
  | (_, some err) => [(none, some (err))]
  | (some result, none) =>
    if result.nodeEvict.length ≠ 0 ∨ result.nodeAllocation.length ≠ 0 then
      match applyPlan s result with
      | none => [(none, some .raftFailed)]
      | some allocIndex => [(some { result with allocIndex := allocIndex }, none)]
    else
      [(some result, none)]
  | (none, none) => []

/-- Modify a snapshot's node and allocation reads at a single node ID, used
to state that `evaluatePlan` never reads a given node from the snapshot. -/
def Snapshot.overrideNode (snap : Snapshot) (n : String) (nodeRes : Option Node)
    (allocRes : Option (List Allocation)) : Snapshot where
  getNodeByID := fun m => if m = n then nodeRes else snap.getNodeByID m
  allocsByNode := fun m => if m = n then allocRes else snap.allocsByNode m
  getIndex := snap.getIndex

/-- The proposed allocation set as the spec sentence describes it: the
snapshot's existing allocations with every allocation whose ID appears in
the eviction list removed (the removal applied only when that list is
non-empty), and the planned allocations appended after the removal. -/
def proposedSpec (existingAlloc : List Allocation) (evictions : List String)
    (allocList : List Allocation) : List Allocation :=
  (if evictions.length > 0 then
    existingAlloc.filter (fun a => !(evictions.contains a.id))
  else existingAlloc) ++ allocList

/-- The entries of `plan.NodeAllocation` with a non-empty allocation list,
in iteration order: the placements an all-fitting evaluation records. -/
def acceptedAllocsFrom (entries : List (String × List Allocation)) :
    List (String × List Allocation) :=
  match entries with
  | [] => []
  | (nodeID, allocList) :: rest =>
    (if allocList.length > 0 then [(nodeID, allocList)] else []) ++
      acceptedAllocsFrom rest

/-- For each entry of `plan.NodeAllocation` whose node has a non-empty
`plan.NodeEvict` list, that eviction list, in iteration order: the evictions
an all-fitting evaluation records. -/
def acceptedEvictsFrom (plan : Plan) (entries : List (String × List Allocation)) :
    List (String × List String) :=
  match entries with
  | [] => []
  | (nodeID, _) :: rest =>
    (if ((assocLookup plan.nodeEvict nodeID).getD []).length > 0 then
      [(nodeID, (assocLookup plan.nodeEvict nodeID).getD [])]
    else []) ++ acceptedEvictsFrom plan rest

/-! ### Concrete instances

A small cluster used to evaluate the definitions on closed inputs: node `A`
with capacity 10 and node `B` with capacity 5, node `B` already running
allocation `b1` of size 3.  The fit predicate sums resource demands and
compares against the node's capacity. -/

/-- Total resource demand of a list of allocations. -/
def sumRes (al : List Allocation) : Nat :=
  al.foldl (fun acc a => acc + a.resources) 0

/-- A concrete bin-packing fit predicate for the examples. -/
def fitTest (node : Node) (al : List Allocation) : Bool :=
  decide (sumRes al ≤ node.resources)

/-- A second concrete fit predicate that agrees with `fitTest` on every list
of length other than 99, used to exercise fit-agreement statements. -/
def fitTestAlt (node : Node) (al : List Allocation) : Bool :=
  decide (sumRes al ≤ node.resources) || decide (al.length = 99)

/-- A concrete snapshot: nodes `A` (capacity 10, no allocations) and `B`
(capacity 5, running `b1` of size 3); index table entries for `allocs`,
`node` and `nodes`. -/
def snapTest : Snapshot where
  getNodeByID := fun n =>
    if n = "A" then some ⟨"A", 10⟩
    else if n = "B" then some ⟨"B", 5⟩
    else none
  allocsByNode := fun n =>
    if n = "A" then some []
    else if n = "B" then some [⟨"b1", 3⟩]
    else none
  getIndex := fun t =>
    if t = "allocs" then some 3
    else if t = "node" then some 5
    else if t = "nodes" then some 100
    else none

/-- A concrete server wrapping `snapTest` with the example fit predicate and
a consensus layer that always commits at index 7. -/
def serverTest : Server where
  snapshot := some snapTest
  fit := fitTest
  raft := fun _ => some 7

/-- A server whose snapshot acquisition fails. -/
def serverNoSnap : Server where
  snapshot := none
  fit := fitTest
  raft := fun _ => some 7

/-- An all-at-once plan whose first node (`A`) fits and whose second node
(`B`) does not: `b2 + b3 = 6` on top of the existing `b1 = 3` exceeds 5. -/
def planAllAtOnce : Plan where
  nodeAllocation := [("A", [⟨"a1", 4⟩, ⟨"a2", 4⟩]), ("B", [⟨"b2", 3⟩, ⟨"b3", 3⟩])]
  nodeEvict := []
  allAtOnce := true

/-- A single-node plan that does not fit on `B`. -/
def planNoFit : Plan where
  nodeAllocation := [("B", [⟨"b2", 3⟩, ⟨"b3", 3⟩])]
  nodeEvict := []
  allAtOnce := false

/-- A plan with an empty allocation list for `A` and an eviction-only entry
for a node `X` that has no `NodeAllocation` entry. -/
def planEvictOnly : Plan where
  nodeAllocation := [("A", [])]
  nodeEvict := [("X", ["e1"])]
  allAtOnce := false

/-- A plan whose eviction of `b1` from `B` makes room for `b3` of size 2. -/
def planEvictFit : Plan where
  nodeAllocation := [("B", [⟨"b3", 2⟩])]
  nodeEvict := [("B", ["b1"])]
  allAtOnce := false

/-! ### Helper lemmas -/

/-- Every exit of the per-node loop is either `(some result, nil)` or
`(nil, some error)`; the Go pair never has both slots filled or both empty. -/
theorem evalLoop_shape (snap : Snapshot) (fit : Node → List Allocation → Bool)
    (plan : Plan) (entries : List (String × List Allocation))
    (result : PlanResult) :
    (∃ r, evalLoop snap fit plan entries result = (some r, none)) ∨
    (∃ e, evalLoop snap fit plan entries result = (none, some e)) := by
  induction entries generalizing result with
  | nil => exact Or.inl ⟨result, rfl⟩
  | cons p rest ih =>
    obtain ⟨nodeID, allocList⟩ := p
    simp only [evalLoop]
    cases hn : snap.getNodeByID nodeID with
    | none => exact Or.inr ⟨_, rfl⟩
    | some node =>
      cases ha : snap.allocsByNode nodeID with
      | none => exact Or.inr ⟨_, rfl⟩
      | some existingAlloc =>
        by_cases hf :
            fit node (proposedAllocs existingAlloc
              ((assocLookup plan.nodeEvict nodeID).getD []) allocList)
        · simp only [hf, Bool.not_true, Bool.false_eq_true, if_false]
          exact ih _
        · simp only [Bool.not_eq_true] at hf
          simp only [hf, Bool.not_false, if_true]
          cases hai : snap.getIndex "allocs" with
          | none => exact Or.inr ⟨_, rfl⟩
          | some allocIndex =>
            cases hni : snap.getIndex "node" with
            | none => exact Or.inr ⟨_, rfl⟩
            | some nodeIndex =>
              by_cases hall : plan.allAtOnce
              · simp only [hall, if_true]
                exact Or.inl ⟨_, rfl⟩
              · simp only [hall, if_false]
                exact ih _

/-- Same shape fact for `evaluatePlan`. -/
theorem evaluatePlan_shape (s : Server) (plan : Plan) :
    (∃ r, evaluatePlan s plan = (some r, none)) ∨
    (∃ e, evaluatePlan s plan = (none, some e)) := by
  unfold evaluatePlan
  cases s.snapshot with
  | none => exact Or.inr ⟨_, rfl⟩
  | some snap => exact evalLoop_shape ..

/-- Lookup distributes over list append, preferring the left list. -/
theorem assocLookup_append {β : Type} (xs ys : List (String × β)) (k : String) :
    assocLookup (xs ++ ys) k =
      match assocLookup xs k with
      | some v => some v
      | none => assocLookup ys k := by
  induction xs with
  | nil => rfl
  | cons p rest ih =>
    obtain ⟨k', v⟩ := p
    by_cases hk : k' = k
    · simp [assocLookup, hk]
    · simp [assocLookup, hk, ih]

/-- Lookup misses exactly the keys absent from the list. -/
theorem assocLookup_eq_none_iff {β : Type} (xs : List (String × β)) (k : String) :
    assocLookup xs k = none ↔ k ∉ xs.map Prod.fst := by
  induction xs with
  | nil => simp [assocLookup]
  | cons p rest ih =>
    obtain ⟨k', v⟩ := p
    by_cases hk : k' = k
    · simp [assocLookup, hk]
    · simp [assocLookup, hk, ih, Ne.symm hk]

/-- In a duplicate-free association list (the image of a Go map), every
entry is found by lookup. -/
theorem assocLookup_of_nodup {β : Type} (xs : List (String × β))
    (hnd : (xs.map Prod.fst).Nodup) :
    ∀ p ∈ xs, assocLookup xs p.1 = some p.2 := by
  induction xs with
  | nil => simp
  | cons q rest ih =>
    obtain ⟨k', v⟩ := q
    simp only [List.map_cons, List.nodup_cons] at hnd
    intro p hp
    rcases List.mem_cons.mp hp with rfl | hp'
    · simp [assocLookup]
    · have hne : k' ≠ p.1 := by
        intro h
        exact hnd.1 (h ▸ List.mem_map_of_mem Prod.fst hp')
      simp only [assocLookup, if_neg hne]
      exact ih hnd.2 p hp'

/-- `maxUint64` is the natural-number maximum. -/
theorem maxUint64_eq_max (a b : Nat) : maxUint64 a b = max a b := by
  unfold maxUint64
  split <;> omega

/-- The per-node loop never touches `AllocIndex`. -/
theorem evalLoop_allocIndex (snap : Snapshot) (fit : Node → List Allocation → Bool)
    (plan : Plan) (entries : List (String × List Allocation))
    (acc : PlanResult) (r : PlanResult)
    (h : (evalLoop snap fit plan entries acc).1 = some r) :
    r.allocIndex = acc.allocIndex := by
  induction entries generalizing acc with
  | nil =>
    simp only [evalLoop] at h
    cases h
    rfl
  | cons p rest ih =>
    obtain ⟨nodeID, allocList⟩ := p
    simp only [evalLoop] at h
    cases hn : snap.getNodeByID nodeID with
    | none => rw [hn] at h; cases h
    | some node =>
      rw [hn] at h
      cases ha : snap.allocsByNode nodeID with
      | none => rw [ha] at h; cases h
      | some existingAlloc =>
        rw [ha] at h
        by_cases hf :
            fit node (proposedAllocs existingAlloc
              ((assocLookup plan.nodeEvict nodeID).getD []) allocList)
        · simp only [hf, Bool.not_true, Bool.false_eq_true, if_false] at h
          have h2 := ih _ h
          rw [h2]
          split <;> split <;> rfl
        · simp only [Bool.not_eq_true] at hf
          simp only [hf, Bool.not_false, if_true] at h
          cases hai : snap.getIndex "allocs" with
          | none => rw [hai] at h; cases h
          | some allocIndex =>
            rw [hai] at h
            cases hni : snap.getIndex "node" with
            | none => rw [hni] at h; cases h
            | some nodeIndex =>
              rw [hni] at h
              by_cases hall : plan.allAtOnce = true
              · simp only [hall, if_true] at h
                cases h
                rfl
              · simp only [Bool.not_eq_true] at hall
                simp only [hall, Bool.false_eq_true, if_false] at h
                have h2 := ih _ h
                exact h2

/-- When every snapshot read the loop can perform succeeds, the loop returns
a result and a nil error, whatever the fit predicate decides. -/
theorem evalLoop_ok_of_reads (snap : Snapshot) (fit : Node → List Allocation → Bool)
    (plan : Plan) (entries : List (String × List Allocation)) (acc : PlanResult)
    (hreads : ∀ p ∈ entries,
      (snap.getNodeByID p.1).isSome ∧ (snap.allocsByNode p.1).isSome)
    (hai : (snap.getIndex "allocs").isSome)
    (hni : (snap.getIndex "node").isSome) :
    ∃ r, evalLoop snap fit plan entries acc = (some r, none) := by
  revert hreads
  induction entries generalizing acc with
  | nil => exact fun _ => ⟨acc, rfl⟩
  | cons p rest ih =>
    intro hreads
    obtain ⟨nodeID, allocList⟩ := p
    obtain ⟨hn, ha⟩ := hreads (nodeID, allocList) (List.mem_cons_self _ _)
    have hrest := fun q hq => hreads q (List.mem_cons_of_mem _ hq)
    obtain ⟨node, hn'⟩ := Option.isSome_iff_exists.mp hn
    obtain ⟨existingAlloc, ha'⟩ := Option.isSome_iff_exists.mp ha
    obtain ⟨aIdx, hai'⟩ := Option.isSome_iff_exists.mp hai
    obtain ⟨nIdx, hni'⟩ := Option.isSome_iff_exists.mp hni
    simp only [evalLoop, hn', ha', hai', hni']
    by_cases hf :
        fit node (proposedAllocs existingAlloc
          ((assocLookup plan.nodeEvict nodeID).getD []) allocList)
    · simp only [hf, Bool.not_true, Bool.false_eq_true, if_false]
      exact ih _ hrest
    · simp only [Bool.not_eq_true] at hf
      simp only [hf, Bool.not_false, if_true]
      by_cases hall : plan.allAtOnce = true
      · simp only [hall, if_true]
        exact ⟨_, rfl⟩
      · simp only [Bool.not_eq_true] at hall
        simp only [hall, Bool.false_eq_true, if_false]
        exact ih _ hrest

/-- The loop never reads node data for a node ID it does not iterate:
overriding the snapshot's node and allocation reads at such an ID leaves the
outcome unchanged. -/
theorem evalLoop_override_irrel (snap : Snapshot)
    (fit : Node → List Allocation → Bool) (plan : Plan)
    (entries : List (String × List Allocation)) (acc : PlanResult)
    (n : String) (nodeRes : Option Node) (allocRes : Option (List Allocation))
    (hn : ∀ p ∈ entries, p.1 ≠ n) :
    evalLoop (snap.overrideNode n nodeRes allocRes) fit plan entries acc =
      evalLoop snap fit plan entries acc := by
  revert hn
  induction entries generalizing acc with
  | nil => exact fun _ => rfl
  | cons p rest ih =>
    intro hn
    obtain ⟨nodeID, allocList⟩ := p
    have hne : nodeID ≠ n := hn (nodeID, allocList) (List.mem_cons_self _ _)
    have hrest := fun q hq => hn q (List.mem_cons_of_mem _ hq)
    have hgn : (snap.overrideNode n nodeRes allocRes).getNodeByID nodeID =
        snap.getNodeByID nodeID := by
      simp [Snapshot.overrideNode, hne]
    have hga : (snap.overrideNode n nodeRes allocRes).allocsByNode nodeID =
        snap.allocsByNode nodeID := by
      simp [Snapshot.overrideNode, hne]
    have hgi : (snap.overrideNode n nodeRes allocRes).getIndex = snap.getIndex := rfl
    simp only [evalLoop, hgn, hga, hgi]
    cases hnode : snap.getNodeByID nodeID with
    | none => rfl
    | some node =>
      cases ha : snap.allocsByNode nodeID with
      | none => rfl
      | some existingAlloc =>
        by_cases hf :
            fit node (proposedAllocs existingAlloc
              ((assocLookup plan.nodeEvict nodeID).getD []) allocList)
        · simp only [hf, Bool.not_true, Bool.false_eq_true, if_false]
          exact ih _ hrest
        · simp only [Bool.not_eq_true] at hf
          simp only [hf, Bool.not_false, if_true]
          cases hai : snap.getIndex "allocs" with
          | none => rfl
          | some aIdx =>
            cases hni : snap.getIndex "node" with
            | none => rfl
            | some nIdx =>
              by_cases hall : plan.allAtOnce = true
              · simp only [hall, if_true]
              · simp only [Bool.not_eq_true] at hall
                simp only [hall, Bool.false_eq_true, if_false]
                exact ih _ hrest

/-- Every key of the result maps was a key of the accumulator or one of the
iterated `NodeAllocation` entries. -/
theorem evalLoop_keys_sub (snap : Snapshot) (fit : Node → List Allocation → Bool)
    (plan : Plan) (entries : List (String × List Allocation))
    (acc : PlanResult) (r : PlanResult)
    (h : (evalLoop snap fit plan entries acc).1 = some r) (n : String)
    (hmem : n ∈ r.nodeAllocation.map Prod.fst ∨ n ∈ r.nodeEvict.map Prod.fst) :
    (n ∈ acc.nodeAllocation.map Prod.fst ∨ n ∈ acc.nodeEvict.map Prod.fst) ∨
      n ∈ entries.map Prod.fst := by
  induction entries generalizing acc with
  | nil =>
    simp only [evalLoop] at h
    cases h
    exact Or.inl hmem
  | cons p rest ih =>
    obtain ⟨nodeID, allocList⟩ := p
    simp only [evalLoop] at h
    cases hnode : snap.getNodeByID nodeID with
    | none => rw [hnode] at h; cases h
    | some node =>
      rw [hnode] at h
      cases ha : snap.allocsByNode nodeID with
      | none => rw [ha] at h; cases h
      | some existingAlloc =>
        rw [ha] at h
        by_cases hf :
            fit node (proposedAllocs existingAlloc
              ((assocLookup plan.nodeEvict nodeID).getD []) allocList)
        · simp only [hf, Bool.not_true, Bool.false_eq_true, if_false] at h
          rcases ih _ h with hacc | hrest
          · rcases hacc with hA | hE
            · by_cases hl : allocList.length > 0 <;>
                by_cases he : ((assocLookup plan.nodeEvict nodeID).getD []).length > 0 <;>
                simp only [hl, he, if_true, if_false, List.map_append, List.mem_append,
                  List.map_cons, List.map_nil, List.mem_singleton] at hA <;>
                first
                | (rcases hA with hA | hA
                   · exact Or.inl (Or.inl hA)
                   · exact Or.inr (by simp [hA]))
                | exact Or.inl (Or.inl hA)
            · by_cases hl : allocList.length > 0 <;>
                by_cases he : ((assocLookup plan.nodeEvict nodeID).getD []).length > 0 <;>
                simp only [hl, he, if_true, if_false, List.map_append, List.mem_append,
                  List.map_cons, List.map_nil, List.mem_singleton] at hE <;>
                first
                | (rcases hE with hE | hE
                   · exact Or.inl (Or.inr hE)
                   · exact Or.inr (by simp [hE]))
                | exact Or.inl (Or.inr hE)
          · exact Or.inr (List.mem_cons_of_mem _ hrest)
        · simp only [Bool.not_eq_true] at hf
          simp only [hf, Bool.not_false, if_true] at h
          cases hai : snap.getIndex "allocs" with
          | none => rw [hai] at h; cases h
          | some aIdx =>
            rw [hai] at h
            cases hni : snap.getIndex "node" with
            | none => rw [hni] at h; cases h
            | some nIdx =>
              rw [hni] at h
              by_cases hall : plan.allAtOnce = true
              · simp only [hall, if_true] at h
                cases h
                exact Or.inl hmem
              · simp only [Bool.not_eq_true] at hall
                simp only [hall, Bool.false_eq_true, if_false] at h
                rcases ih _ h with hacc | hrest
                · exact Or.inl hacc
                · exact Or.inr (List.mem_cons_of_mem _ hrest)

/-- When the fit predicate accepts every iterated node (all reads
succeeding), the loop appends exactly the non-empty allocation entries and
the non-empty eviction entries of the iterated nodes to the accumulator and
reports no error. -/
theorem evalLoop_all_fit (snap : Snapshot) (fit : Node → List Allocation → Bool)
    (plan : Plan) (entries : List (String × List Allocation)) (acc : PlanResult)
    (hfit : ∀ p ∈ entries, ∃ node existingAlloc,
      snap.getNodeByID p.1 = some node ∧
      snap.allocsByNode p.1 = some existingAlloc ∧
      fit node (proposedAllocs existingAlloc
        ((assocLookup plan.nodeEvict p.1).getD []) p.2) = true) :
    evalLoop snap fit plan entries acc =
      (some { acc with
        nodeEvict := acc.nodeEvict ++ acceptedEvictsFrom plan entries,
        nodeAllocation := acc.nodeAllocation ++ acceptedAllocsFrom entries },
       none) := by
  revert hfit
  induction entries generalizing acc with
  | nil =>
    intro _
    simp [evalLoop, acceptedEvictsFrom, acceptedAllocsFrom]
  | cons p rest ih =>
    intro hfit
    obtain ⟨nodeID, allocList⟩ := p
    obtain ⟨node, existingAlloc, hn, ha, hf⟩ :=
      hfit (nodeID, allocList) (List.mem_cons_self _ _)
    have hrest := fun q hq => hfit q (List.mem_cons_of_mem _ hq)
    simp only [evalLoop, hn, ha, hf, Bool.not_true, Bool.false_eq_true, if_false]
    by_cases he : ((assocLookup plan.nodeEvict nodeID).getD []).length > 0 <;>
      by_cases hl : allocList.length > 0 <;>
      simp only [he, hl, if_true, if_false] <;>
      rw [ih _ hrest] <;>
      simp [acceptedEvictsFrom, acceptedAllocsFrom, he, hl, List.append_assoc]

/-- Appending a differently-keyed pair does not change a lookup. -/
theorem assocLookup_snoc_ne {β : Type} (xs : List (String × β)) (k k' : String)
    (v : β) (hne : k' ≠ k) :
    assocLookup (xs ++ [(k', v)]) k = assocLookup xs k := by
  rw [assocLookup_append]
  cases hx : assocLookup xs k
  · simp [assocLookup, hne]
  · rfl

/-- A lookup that returns a value returns a pair of the list. -/
theorem assocLookup_mem {β : Type} (xs : List (String × β)) (k : String) (v : β)
    (h : assocLookup xs k = some v) : (k, v) ∈ xs := by
  induction xs with
  | nil => cases h
  | cons p rest ih =>
    obtain ⟨k', v'⟩ := p
    by_cases hk : k' = k
    · subst hk
      simp only [assocLookup, if_pos rfl] at h
      cases h
      exact List.mem_cons_self _ _
    · simp only [assocLookup, if_neg hk] at h
      exact List.mem_cons_of_mem _ (ih h)

/-- Membership in the non-empty-placements restriction, both directions. -/
theorem mem_acceptedAllocsFrom (entries : List (String × List Allocation))
    (p : String × List Allocation) :
    p ∈ acceptedAllocsFrom entries ↔ p ∈ entries ∧ p.2.length > 0 := by
  induction entries with
  | nil => simp [acceptedAllocsFrom]
  | cons q rest ih =>
    obtain ⟨nodeID, allocList⟩ := q
    by_cases hl : allocList.length > 0
    · simp only [acceptedAllocsFrom, hl, if_true, List.singleton_append,
        List.mem_cons, ih]
      constructor
      · rintro (rfl | ⟨hp, hlen⟩)
        · exact ⟨Or.inl rfl, hl⟩
        · exact ⟨Or.inr hp, hlen⟩
      · rintro ⟨rfl | hp, hlen⟩
        · exact Or.inl rfl
        · exact Or.inr ⟨hp, hlen⟩
    · simp only [acceptedAllocsFrom, hl, if_false, List.nil_append, ih,
        List.mem_cons]
      constructor
      · rintro ⟨hp, hlen⟩
        exact ⟨Or.inr hp, hlen⟩
      · rintro ⟨rfl | hp, hlen⟩
        · exact absurd hlen hl
        · exact ⟨hp, hlen⟩

/-- Membership in the non-empty-evictions restriction, both directions. -/
theorem mem_acceptedEvictsFrom (plan : Plan)
    (entries : List (String × List Allocation)) (q : String × List String) :
    q ∈ acceptedEvictsFrom plan entries ↔
      q.1 ∈ entries.map Prod.fst ∧
      q.2 = (assocLookup plan.nodeEvict q.1).getD [] ∧ q.2.length > 0 := by
  induction entries with
  | nil => simp [acceptedEvictsFrom]
  | cons p rest ih =>
    obtain ⟨nodeID, allocList⟩ := p
    obtain ⟨qk, qv⟩ := q
    by_cases he : ((assocLookup plan.nodeEvict nodeID).getD []).length > 0
    · simp only [acceptedEvictsFrom, he, if_true, List.singleton_append,
        List.mem_cons, ih, List.map_cons]
      constructor
      · rintro (h | ⟨hk, hv, hlen⟩)
        · cases h
          exact ⟨Or.inl rfl, rfl, he⟩
        · exact ⟨Or.inr hk, hv, hlen⟩
      · rintro ⟨hk, hv, hlen⟩
        rcases hk with rfl | hk'
        · cases hv
          exact Or.inl rfl
        · exact Or.inr ⟨hk', hv, hlen⟩
    · simp only [acceptedEvictsFrom, he, if_false, List.nil_append, ih,
        List.map_cons]
      constructor
      · rintro ⟨hk, hv, hlen⟩
        exact ⟨List.mem_cons_of_mem _ hk, hv, hlen⟩
      · rintro ⟨hk, hv, hlen⟩
        rcases List.mem_cons.mp hk with rfl | hk'
        · cases hv
          exact absurd hlen he
        · exact ⟨hk', hv, hlen⟩

/-- Any successful run of the loop extends the accumulator by exactly the
recorded non-empty entries of some subsequence of the iterated entries (the
accepted ones, a prefix of them when the plan is all-at-once). -/
theorem evalLoop_result_structure (snap : Snapshot)
    (fit : Node → List Allocation → Bool) (plan : Plan)
    (entries : List (String × List Allocation)) (acc : PlanResult)
    (r : PlanResult) (h : (evalLoop snap fit plan entries acc).1 = some r) :
    ∃ accepted, accepted.Sublist entries ∧
      r.nodeAllocation = acc.nodeAllocation ++ acceptedAllocsFrom accepted ∧
      r.nodeEvict = acc.nodeEvict ++ acceptedEvictsFrom plan accepted := by
  induction entries generalizing acc with
  | nil =>
    simp only [evalLoop] at h
    cases h
    exact ⟨[], List.nil_sublist _, by simp [acceptedAllocsFrom],
      by simp [acceptedEvictsFrom]⟩
  | cons p rest ih =>
    obtain ⟨nodeID, allocList⟩ := p
    simp only [evalLoop] at h
    cases hnode : snap.getNodeByID nodeID with
    | none => rw [hnode] at h; cases h
    | some node =>
      rw [hnode] at h
      cases ha : snap.allocsByNode nodeID with
      | none => rw [ha] at h; cases h
      | some existingAlloc =>
        rw [ha] at h
        by_cases hf :
            fit node (proposedAllocs existingAlloc
              ((assocLookup plan.nodeEvict nodeID).getD []) allocList)
        · simp only [hf, Bool.not_true, Bool.false_eq_true, if_false] at h
          by_cases he : ((assocLookup plan.nodeEvict nodeID).getD []).length > 0 <;>
            by_cases hl : allocList.length > 0 <;>
            simp only [he, hl, if_true, if_false] at h <;>
            · obtain ⟨accepted, hsub, hna, hne⟩ := ih _ h
              refine ⟨(nodeID, allocList) :: accepted, hsub.cons₂ _, ?_, ?_⟩
              · rw [hna]
                simp [acceptedAllocsFrom, hl, List.append_assoc]
              · rw [hne]
                simp [acceptedEvictsFrom, he, List.append_assoc]
        · simp only [Bool.not_eq_true] at hf
          simp only [hf, Bool.not_false, if_true] at h
          cases hai : snap.getIndex "allocs" with
          | none => rw [hai] at h; cases h
          | some aIdx =>
            rw [hai] at h
            cases hni : snap.getIndex "node" with
            | none => rw [hni] at h; cases h
            | some nIdx =>
              rw [hni] at h
              by_cases hall : plan.allAtOnce = true
              · simp only [hall, if_true] at h
                cases h
                exact ⟨[], List.nil_sublist _, by simp [acceptedAllocsFrom],
                  by simp [acceptedEvictsFrom]⟩
              · simp only [Bool.not_eq_true] at hall
                simp only [hall, Bool.false_eq_true, if_false] at h
                obtain ⟨accepted, hsub, hna, hne⟩ := ih _ h
                exact ⟨accepted, hsub.cons _, hna, hne⟩

/-- If two fit predicates agree on every pair of a looked-up node and its
proposed allocation set, the loop behaves identically under them: the fit
predicate is consulted only at those inputs. -/
theorem evalLoop_fit_agree (snap : Snapshot)
    (fitA fitB : Node → List Allocation → Bool) (plan : Plan)
    (entries : List (String × List Allocation)) (acc : PlanResult)
    (hagree : ∀ p ∈ entries, ∀ node existingAlloc,
      snap.getNodeByID p.1 = some node →
      snap.allocsByNode p.1 = some existingAlloc →
      fitA node (proposedAllocs existingAlloc
        ((assocLookup plan.nodeEvict p.1).getD []) p.2) =
      fitB node (proposedAllocs existingAlloc
        ((assocLookup plan.nodeEvict p.1).getD []) p.2)) :
    evalLoop snap fitA plan entries acc = evalLoop snap fitB plan entries acc := by
  revert hagree
  induction entries generalizing acc with
  | nil => exact fun _ => rfl
  | cons p rest ih =>
    intro hagree
    obtain ⟨nodeID, allocList⟩ := p
    have hrest := fun q hq => hagree q (List.mem_cons_of_mem _ hq)
    simp only [evalLoop]
    cases hn : snap.getNodeByID nodeID with
    | none => rfl
    | some node =>
      cases ha : snap.allocsByNode nodeID with
      | none => rfl
      | some existingAlloc =>
        have hAB := hagree (nodeID, allocList) (List.mem_cons_self _ _)
          node existingAlloc hn ha
        simp only [hAB]
        by_cases hf :
            fitB node (proposedAllocs existingAlloc
              ((assocLookup plan.nodeEvict nodeID).getD []) allocList)
        · simp only [hf, Bool.not_true, Bool.false_eq_true, if_false]
          exact ih _ hrest
        · simp only [Bool.not_eq_true] at hf
          simp only [hf, Bool.not_false, if_true]
          cases hai : snap.getIndex "allocs" with
          | none => rfl
          | some aIdx =>
            cases hni : snap.getIndex "node" with
            | none => rfl
            | some nIdx =>
              by_cases hall : plan.allAtOnce = true
              · simp only [hall, if_true]
              · simp only [Bool.not_eq_true] at hall
                simp only [hall, Bool.false_eq_true, if_false]
                exact ih _ hrest

/-- `evaluatePlan` does not consult the consensus layer. -/
theorem evaluatePlan_raft_irrel (s : Server) (plan : Plan)
    (raft' : AllocUpdateRequest → Option Nat) :
    evaluatePlan { s with raft := raft' } plan = evaluatePlan s plan := by
  cases s
  rfl

/-! ### Claim theorems -/

/-- Claim C10: whenever `evaluatePlan` returns a non-nil error, the returned
`PlanResult` is nil — the caller never observes a partially populated result
together with an error. -/
theorem evaluatePlan_err_result_nil (s : Server) (plan : Plan) (e : EvalErr)
    (h : (evaluatePlan s plan).2 = some e) :
    (evaluatePlan s plan).1 = none := by
  rcases evaluatePlan_shape s plan with ⟨r, hr⟩ | ⟨e', he⟩
  · rw [hr] at h
    simp at h
  · rw [he]

/-- Witness for C10 at a server whose snapshot acquisition fails. -/
theorem evaluatePlan_err_result_nil_witness :
    (evaluatePlan serverNoSnap planNoFit).2 = some .snapshotFailed ∧
    (evaluatePlan serverNoSnap planNoFit).1 = none :=
  ⟨rfl, evaluatePlan_err_result_nil serverNoSnap planNoFit .snapshotFailed rfl⟩

/-- Claim C7: when snapshot acquisition and every snapshot read succeed,
`evaluatePlan` returns a nil error and a non-nil result whatever the fit
checks decide — an infeasible plan is a successful evaluation, not an
error. -/
theorem evaluatePlan_infeasible_not_error (s : Server) (plan : Plan)
    (snap : Snapshot) (hsnap : s.snapshot = some snap)
    (hreads : ∀ p ∈ plan.nodeAllocation,
      (snap.getNodeByID p.1).isSome ∧ (snap.allocsByNode p.1).isSome)
    (hai : (snap.getIndex "allocs").isSome)
    (hni : (snap.getIndex "node").isSome) :
    (evaluatePlan s plan).2 = none ∧ (evaluatePlan s plan).1.isSome := by
  obtain ⟨r, hr⟩ :=
    evalLoop_ok_of_reads snap s.fit plan plan.nodeAllocation
      { nodeEvict := [], nodeAllocation := [], refreshIndex := 0, allocIndex := 0 }
      hreads hai hni
  have heq : evaluatePlan s plan = (some r, none) := by
    unfold evaluatePlan
    rw [hsnap]
    exact hr
  rw [heq]
  exact ⟨rfl, rfl⟩

/-- Witness for C7 at a concrete plan that does not fit: all reads succeed,
the fit check fails, and the evaluation still reports no error. -/
theorem evaluatePlan_infeasible_not_error_witness :
    (evaluatePlan serverTest planNoFit).2 = none ∧
    (evaluatePlan serverTest planNoFit).1.isSome :=
  evaluatePlan_infeasible_not_error serverTest planNoFit snapTest rfl
    (by decide) (by decide) (by decide)

/-- Claim C2 (amended: the code reads index table `"node"`, not `"nodes"`):
when a node fails the fit check and the index reads succeed, the loop body
sets `result.RefreshIndex` to the maximum of its previous value, the
snapshot index of table `"node"` and the snapshot index of table
`"allocs"`, then returns if the plan is all-at-once and otherwise continues
with the remaining nodes.  The bound `hprev` records the loop invariant
that the previous value never exceeds that maximum (it is `0` initially
and a value of this same form after any failing node). -/
theorem evalLoop_refresh_on_fail (snap : Snapshot)
    (fit : Node → List Allocation → Bool) (plan : Plan)
    (nodeID : String) (allocList : List Allocation)
    (rest : List (String × List Allocation)) (result : PlanResult)
    (node : Node) (existingAlloc : List Allocation) (aIdx nIdx : Nat)
    (hnode : snap.getNodeByID nodeID = some node)
    (hex : snap.allocsByNode nodeID = some existingAlloc)
    (hfit : fit node (proposedAllocs existingAlloc
        ((assocLookup plan.nodeEvict nodeID).getD []) allocList) = false)
    (hai : snap.getIndex "allocs" = some aIdx)
    (hni : snap.getIndex "node" = some nIdx)
    (hprev : result.refreshIndex ≤ maxUint64 nIdx aIdx) :
    evalLoop snap fit plan ((nodeID, allocList) :: rest) result =
      (if plan.allAtOnce then
        (some { result with
          refreshIndex := maxUint64 (maxUint64 result.refreshIndex nIdx) aIdx }, none)
      else
        evalLoop snap fit plan rest
          { result with
            refreshIndex := maxUint64 (maxUint64 result.refreshIndex nIdx) aIdx }) := by
  have hmax : maxUint64 nIdx aIdx =
      maxUint64 (maxUint64 result.refreshIndex nIdx) aIdx := by
    simp only [maxUint64_eq_max] at hprev ⊢
    omega
  simp only [evalLoop, hnode, hex, hai, hni, hfit, Bool.not_false, if_true]
  rw [← hmax]

/-- Witness for C2 at the concrete snapshot and failing plan. -/
theorem evalLoop_refresh_on_fail_witness :
    evalLoop snapTest fitTest planNoFit
        [("B", [⟨"b2", 3⟩, ⟨"b3", 3⟩])] ⟨[], [], 0, 0⟩ =
      (if planNoFit.allAtOnce then
        (some ⟨[], [], maxUint64 (maxUint64 0 5) 3, 0⟩, none)
      else
        evalLoop snapTest fitTest planNoFit []
          ⟨[], [], maxUint64 (maxUint64 0 5) 3, 0⟩) :=
  evalLoop_refresh_on_fail snapTest fitTest planNoFit "B"
    [⟨"b2", 3⟩, ⟨"b3", 3⟩] [] ⟨[], [], 0, 0⟩ ⟨"B", 5⟩ [⟨"b1", 3⟩] 3 5
    rfl rfl (by decide) rfl rfl (by decide)

/-- Counterexample to C2 as stated: the failing fit check leaves
`RefreshIndex = 5 = max(index "node", index "allocs")` even though the
snapshot's `"nodes"` table index is `100`, so the result is not the maximum
over table `"nodes"` as the claim requires. -/
theorem evaluatePlan_refresh_nodes_table_cex :
    evaluatePlan serverTest planNoFit =
      (some { nodeEvict := [], nodeAllocation := [],
              refreshIndex := 5, allocIndex := 0 }, none) ∧
    snapTest.getIndex "nodes" = some 100 ∧
    snapTest.getIndex "allocs" = some 3 ∧
    5 ≠ maxUint64 (maxUint64 0 100) 3 := by
  refine ⟨by decide, rfl, rfl, by decide⟩

/-- Claim C3 (amended: the result maps are the plan maps restricted to what
the loop records): when the fit predicate accepts every node of
`plan.NodeAllocation`, the evaluation succeeds with `RefreshIndex = 0`,
`result.NodeAllocation` equal to `plan.NodeAllocation` restricted to its
entries with a non-empty allocation list, and `result.NodeEvict` equal to
the map sending each node of `plan.NodeAllocation` with a non-empty
`plan.NodeEvict` list to that list. -/
theorem evaluatePlan_round_trip (s : Server) (plan : Plan) (snap : Snapshot)
    (hsnap : s.snapshot = some snap)
    (hfit : ∀ p ∈ plan.nodeAllocation, ∃ node existingAlloc,
      snap.getNodeByID p.1 = some node ∧
      snap.allocsByNode p.1 = some existingAlloc ∧
      s.fit node (proposedAllocs existingAlloc
        ((assocLookup plan.nodeEvict p.1).getD []) p.2) = true) :
    evaluatePlan s plan =
      (some { nodeEvict := acceptedEvictsFrom plan plan.nodeAllocation,
              nodeAllocation := acceptedAllocsFrom plan.nodeAllocation,
              refreshIndex := 0, allocIndex := 0 }, none) := by
  have h2 : evaluatePlan s plan =
      evalLoop snap s.fit plan plan.nodeAllocation
        { nodeEvict := [], nodeAllocation := [], refreshIndex := 0, allocIndex := 0 } := by
    unfold evaluatePlan
    rw [hsnap]
  rw [h2, evalLoop_all_fit snap s.fit plan plan.nodeAllocation _ hfit]
  rfl

/-- Witness for C3 at `planEvictFit`, where the eviction of `b1` makes `b3`
fit on `B`: the whole plan round-trips into the result. -/
theorem evaluatePlan_round_trip_witness :
    evaluatePlan serverTest planEvictFit =
      (some { nodeEvict := acceptedEvictsFrom planEvictFit planEvictFit.nodeAllocation,
              nodeAllocation := acceptedAllocsFrom planEvictFit.nodeAllocation,
              refreshIndex := 0, allocIndex := 0 }, none) :=
  evaluatePlan_round_trip serverTest planEvictFit snapTest rfl
    (by
      intro p hp
      simp only [planEvictFit, List.mem_singleton] at hp
      subst hp
      exact ⟨⟨"B", 5⟩, [⟨"b1", 3⟩], rfl, rfl, by decide⟩)

/-- Claim C4: for every node that appears in the result of `evaluatePlan`
(plan keys being unique, as for a Go map), the placements recorded for it
are exactly `plan.NodeAllocation[n]` and the evictions recorded for it are
exactly `plan.NodeEvict[n]`, the empty list standing for an absent entry —
never a strict subset of either list. -/
theorem evaluatePlan_per_node_exact (s : Server) (plan : Plan) (r : PlanResult)
    (n : String)
    (hnodup : (plan.nodeAllocation.map Prod.fst).Nodup)
    (hres : (evaluatePlan s plan).1 = some r)
    (hmem : n ∈ r.nodeAllocation.map Prod.fst ∨ n ∈ r.nodeEvict.map Prod.fst) :
    (assocLookup r.nodeAllocation n).getD [] =
      (assocLookup plan.nodeAllocation n).getD [] ∧
    (assocLookup r.nodeEvict n).getD [] =
      (assocLookup plan.nodeEvict n).getD [] := by
  cases hs : s.snapshot with
  | none =>
    unfold evaluatePlan at hres
    rw [hs] at hres
    simp at hres
  | some snap =>
    unfold evaluatePlan at hres
    rw [hs] at hres
    have hres2 : (evalLoop snap s.fit plan plan.nodeAllocation
        { nodeEvict := [], nodeAllocation := [], refreshIndex := 0,
          allocIndex := 0 }).1 = some r := hres
    obtain ⟨accepted, hsub, hna, hne⟩ :=
      evalLoop_result_structure snap s.fit plan plan.nodeAllocation _ r hres2
    have hna2 : r.nodeAllocation = acceptedAllocsFrom accepted := by
      rw [hna]
      rfl
    have hne2 : r.nodeEvict = acceptedEvictsFrom plan accepted := by
      rw [hne]
      rfl
    constructor
    · cases hra : assocLookup r.nodeAllocation n with
      | some v =>
        have hmemr : (n, v) ∈ acceptedAllocsFrom accepted := by
          rw [← hna2]
          exact assocLookup_mem _ _ _ hra
        obtain ⟨hacc, hvlen⟩ := (mem_acceptedAllocsFrom accepted _).mp hmemr
        have hplan : (n, v) ∈ plan.nodeAllocation := hsub.subset hacc
        have hlook := assocLookup_of_nodup plan.nodeAllocation hnodup (n, v) hplan
        rw [hlook]
      | none =>
        rcases hmem with hA | hE
        · exact absurd hA ((assocLookup_eq_none_iff _ _).mp hra)
        · rw [hne2] at hE
          obtain ⟨⟨n2, ev⟩, hq, hfst⟩ := List.mem_map.mp hE
          have hn2 : n2 = n := hfst
          rw [hn2] at hq
          obtain ⟨hk, _, _⟩ := (mem_acceptedEvictsFrom plan accepted _).mp hq
          obtain ⟨⟨n3, al⟩, hpal, hfst3⟩ := List.mem_map.mp hk
          have hn3 : n3 = n := hfst3
          rw [hn3] at hpal
          have hplan : (n, al) ∈ plan.nodeAllocation := hsub.subset hpal
          have hlook := assocLookup_of_nodup plan.nodeAllocation hnodup (n, al) hplan
          by_cases hal : al.length > 0
          · exfalso
            have hin : (n, al) ∈ acceptedAllocsFrom accepted :=
              (mem_acceptedAllocsFrom accepted _).mpr ⟨hpal, hal⟩
            have : n ∈ r.nodeAllocation.map Prod.fst := by
              rw [hna2]
              exact List.mem_map_of_mem Prod.fst hin
            exact absurd this ((assocLookup_eq_none_iff _ _).mp hra)
          · have hal0 : al = [] := by
              have : al.length = 0 := by omega
              exact List.length_eq_zero.mp this
            rw [hlook, hal0]
            rfl
    · cases hre : assocLookup r.nodeEvict n with
      | some ev =>
        have hmemr : (n, ev) ∈ acceptedEvictsFrom plan accepted := by
          rw [← hne2]
          exact assocLookup_mem _ _ _ hre
        obtain ⟨_, hv, _⟩ := (mem_acceptedEvictsFrom plan accepted _).mp hmemr
        exact hv
      | none =>
        rcases hmem with hA | hE
        · rw [hna2] at hA
          obtain ⟨⟨n2, v⟩, hv, hfst⟩ := List.mem_map.mp hA
          have hn2 : n2 = n := hfst
          rw [hn2] at hv
          obtain ⟨hacc, _⟩ := (mem_acceptedAllocsFrom accepted _).mp hv
          by_cases hev : ((assocLookup plan.nodeEvict n).getD []).length > 0
          · exfalso
            have hin : (n, (assocLookup plan.nodeEvict n).getD []) ∈
                acceptedEvictsFrom plan accepted :=
              (mem_acceptedEvictsFrom plan accepted _).mpr
                ⟨List.mem_map_of_mem Prod.fst hacc, rfl, hev⟩
            have : n ∈ r.nodeEvict.map Prod.fst := by
              rw [hne2]
              exact List.mem_map_of_mem Prod.fst hin
            exact absurd this ((assocLookup_eq_none_iff _ _).mp hre)
          · have : (assocLookup plan.nodeEvict n).getD [] = [] := by
              have h0 : ((assocLookup plan.nodeEvict n).getD []).length = 0 := by omega
              exact List.length_eq_zero.mp h0
            rw [this]
            rfl
        · exact absurd hE ((assocLookup_eq_none_iff _ _).mp hre)

/-- Witness for C4 at `planEvictFit` and its accepted node `B`. -/
theorem evaluatePlan_per_node_exact_witness :
    (assocLookup (PlanResult.mk [("B", ["b1"])] [("B", [⟨"b3", 2⟩])] 0 0).nodeAllocation
        "B").getD [] =
      (assocLookup planEvictFit.nodeAllocation "B").getD [] ∧
    (assocLookup (PlanResult.mk [("B", ["b1"])] [("B", [⟨"b3", 2⟩])] 0 0).nodeEvict
        "B").getD [] =
      (assocLookup planEvictFit.nodeEvict "B").getD [] :=
  evaluatePlan_per_node_exact serverTest planEvictFit
    (PlanResult.mk [("B", ["b1"])] [("B", [⟨"b3", 2⟩])] 0 0) "B"
    (by decide) (by decide) (by decide)

/-- Claim C5: for every node the evaluation iterates, the allocation set
handed to the fit predicate is computed exactly as the spec's proposed set:
the snapshot's existing allocations for the node, with the allocations
whose IDs appear in `plan.NodeEvict[n]` removed only when that list is
non-empty, and `plan.NodeAllocation[n]` appended after the removal.  The
first conjunct equates the code's computation with that formula; the second
shows the evaluation consults the fit predicate only at such inputs. -/
theorem evaluatePlan_fit_on_proposed (s : Server) (snap : Snapshot)
    (plan : Plan) (fitB : Node → List Allocation → Bool)
    (hsnap : s.snapshot = some snap)
    (hagree : ∀ p ∈ plan.nodeAllocation, ∀ node existingAlloc,
      snap.getNodeByID p.1 = some node →
      snap.allocsByNode p.1 = some existingAlloc →
      s.fit node (proposedSpec existingAlloc
        ((assocLookup plan.nodeEvict p.1).getD []) p.2) =
      fitB node (proposedSpec existingAlloc
        ((assocLookup plan.nodeEvict p.1).getD []) p.2)) :
    (∀ existingAlloc evictions allocList,
      proposedAllocs existingAlloc evictions allocList =
        proposedSpec existingAlloc evictions allocList) ∧
    evaluatePlan { s with fit := fitB } plan = evaluatePlan s plan := by
  refine ⟨fun _ _ _ => rfl, ?_⟩
  have lhs_eq : evaluatePlan { s with fit := fitB } plan =
      evalLoop snap fitB plan plan.nodeAllocation
        { nodeEvict := [], nodeAllocation := [], refreshIndex := 0,
          allocIndex := 0 } := by
    unfold evaluatePlan
    rw [show ({ s with fit := fitB } : Server).snapshot = s.snapshot from rfl, hsnap]
  have rhs_eq : evaluatePlan s plan =
      evalLoop snap s.fit plan plan.nodeAllocation
        { nodeEvict := [], nodeAllocation := [], refreshIndex := 0,
          allocIndex := 0 } := by
    unfold evaluatePlan
    rw [hsnap]
  rw [lhs_eq, rhs_eq]
  exact (evalLoop_fit_agree snap s.fit fitB plan plan.nodeAllocation _
    (fun p hp node ex hn ha => hagree p hp node ex hn ha)).symm

/-- Witness for C5 at `planEvictFit`: `fitTestAlt` agrees with the server's
fit predicate on the one proposed set the plan generates, so the evaluation
is unchanged, and the code's proposed set equals the spec formula there. -/
theorem evaluatePlan_fit_on_proposed_witness :
    (proposedAllocs [⟨"b1", 3⟩] ["b1"] [⟨"b3", 2⟩] =
      proposedSpec [⟨"b1", 3⟩] ["b1"] [⟨"b3", 2⟩]) ∧
    evaluatePlan { serverTest with fit := fitTestAlt } planEvictFit =
      evaluatePlan serverTest planEvictFit :=
  ⟨(evaluatePlan_fit_on_proposed serverTest snapTest planEvictFit fitTestAlt rfl
      (by
        intro p hp node ex hn ha
        simp only [planEvictFit, List.mem_singleton] at hp
        subst hp
        have hnode : (⟨"B", 5⟩ : Node) = node := Option.some_inj.mp hn
        have hex : ([⟨"b1", 3⟩] : List Allocation) = ex := Option.some_inj.mp ha
        subst hnode
        subst hex
        decide)).1 [⟨"b1", 3⟩] ["b1"] [⟨"b3", 2⟩],
   (evaluatePlan_fit_on_proposed serverTest snapTest planEvictFit fitTestAlt rfl
      (by
        intro p hp node ex hn ha
        simp only [planEvictFit, List.mem_singleton] at hp
        subst hp
        have hnode : (⟨"B", 5⟩ : Node) = node := Option.some_inj.mp hn
        have hex : ([⟨"b1", 3⟩] : List Allocation) = ex := Option.some_inj.mp ha
        subst hnode
        subst hex
        decide)).2⟩

/-- Claim C6: a node that appears as a key of `plan.NodeEvict` but not of
`plan.NodeAllocation` is never iterated: it appears in neither result map
(its evictions are silently dropped), and the evaluation never reads its
node record or existing allocations from the snapshot — overriding those
two reads at that node changes nothing. -/
theorem evaluatePlan_evict_only_dropped (s : Server) (snap : Snapshot)
    (plan : Plan) (n : String)
    (hsnap : s.snapshot = some snap)
    (_hev : n ∈ plan.nodeEvict.map Prod.fst)
    (hna : n ∉ plan.nodeAllocation.map Prod.fst) :
    (∀ r, (evaluatePlan s plan).1 = some r →
      n ∉ r.nodeAllocation.map Prod.fst ∧ n ∉ r.nodeEvict.map Prod.fst) ∧
    (∀ nodeRes allocRes,
      evaluatePlan
          { s with snapshot := some (snap.overrideNode n nodeRes allocRes) } plan =
        evaluatePlan s plan) := by
  have rhs_eq : evaluatePlan s plan =
      evalLoop snap s.fit plan plan.nodeAllocation
        { nodeEvict := [], nodeAllocation := [], refreshIndex := 0, allocIndex := 0 } := by
    unfold evaluatePlan
    rw [hsnap]
  constructor
  · intro r hr
    rw [rhs_eq] at hr
    constructor
    · intro hmem
      rcases evalLoop_keys_sub snap s.fit plan plan.nodeAllocation _ r hr n
          (Or.inl hmem) with hacc | hent
      · simp at hacc
      · exact hna hent
    · intro hmem
      rcases evalLoop_keys_sub snap s.fit plan plan.nodeAllocation _ r hr n
          (Or.inr hmem) with hacc | hent
      · simp at hacc
      · exact hna hent
  · intro nodeRes allocRes
    have hno : ∀ p ∈ plan.nodeAllocation, p.1 ≠ n := by
      intro p hp hpn
      exact hna (hpn ▸ List.mem_map_of_mem Prod.fst hp)
    have lhs_eq : evaluatePlan
        { s with snapshot := some (snap.overrideNode n nodeRes allocRes) } plan =
        evalLoop (snap.overrideNode n nodeRes allocRes) s.fit plan plan.nodeAllocation
          { nodeEvict := [], nodeAllocation := [], refreshIndex := 0, allocIndex := 0 } := rfl
    rw [lhs_eq, rhs_eq]
    exact evalLoop_override_irrel snap s.fit plan plan.nodeAllocation _ n nodeRes allocRes hno

/-- Witness for C6 at `planEvictOnly`, whose node `X` appears only in
`NodeEvict`: the result drops it and overriding the snapshot at `X` does
not change the evaluation. -/
theorem evaluatePlan_evict_only_dropped_witness :
    ("X" ∉ (PlanResult.mk [] [] 0 0).nodeAllocation.map Prod.fst ∧
     "X" ∉ (PlanResult.mk [] [] 0 0).nodeEvict.map Prod.fst) ∧
    evaluatePlan
        { serverTest with
          snapshot := some (snapTest.overrideNode "X" (some ⟨"X", 1⟩) (some [])) }
        planEvictOnly =
      evaluatePlan serverTest planEvictOnly :=
  ⟨(evaluatePlan_evict_only_dropped serverTest snapTest planEvictOnly "X" rfl
      (by decide) (by decide)).1 (PlanResult.mk [] [] 0 0) (by decide),
   (evaluatePlan_evict_only_dropped serverTest snapTest planEvictOnly "X" rfl
      (by decide) (by decide)).2 (some ⟨"X", 1⟩) (some [])⟩

/-- Claim C9: when evaluation succeeds with both result maps empty, the
applier skips consensus submission — the single response is
`(result, nil)`, `AllocIndex` stays `0`, and the outcome is independent of
the consensus layer. -/
theorem planApplyIter_skip_empty (s : Server) (plan : Plan) (r : PlanResult)
    (heval : evaluatePlan s plan = (some r, none))
    (hev : r.nodeEvict = []) (hna : r.nodeAllocation = []) :
    planApplyIter s plan = [(some r, none)] ∧ r.allocIndex = 0 ∧
    ∀ raft', planApplyIter { s with raft := raft' } plan = planApplyIter s plan := by
  have hcond : ¬(r.nodeEvict.length ≠ 0 ∨ r.nodeAllocation.length ≠ 0) := by
    simp [hev, hna]
  have hiter : planApplyIter s plan = [(some r, none)] := by
    simp only [planApplyIter, heval]
    rw [if_neg hcond]
  have hidx : r.allocIndex = 0 := by
    cases hs : s.snapshot with
    | none =>
      unfold evaluatePlan at heval
      rw [hs] at heval
      simp at heval
    | some snap =>
      unfold evaluatePlan at heval
      rw [hs] at heval
      have heval2 : evalLoop snap s.fit plan plan.nodeAllocation
          { nodeEvict := [], nodeAllocation := [], refreshIndex := 0, allocIndex := 0 } =
          (some r, none) := heval
      exact evalLoop_allocIndex snap s.fit plan plan.nodeAllocation _ r (by rw [heval2])
  refine ⟨hiter, hidx, ?_⟩
  intro raft'
  have heval' : evaluatePlan { s with raft := raft' } plan = (some r, none) := by
    rw [evaluatePlan_raft_irrel]
    exact heval
  rw [hiter]
  simp only [planApplyIter, heval']
  rw [if_neg hcond]

/-- Witness for C9 at `planEvictOnly`, whose evaluation is empty: one
`(result, nil)` response, `AllocIndex = 0`, and a failing consensus layer
changes nothing because it is never invoked. -/
theorem planApplyIter_skip_empty_witness :
    planApplyIter serverTest planEvictOnly =
      [(some { nodeEvict := [], nodeAllocation := [],
               refreshIndex := 0, allocIndex := 0 }, none)] ∧
    (PlanResult.mk [] [] 0 0).allocIndex = 0 ∧
    planApplyIter { serverTest with raft := fun _ => none } planEvictOnly =
      planApplyIter serverTest planEvictOnly :=
  ⟨(planApplyIter_skip_empty serverTest planEvictOnly (PlanResult.mk [] [] 0 0)
      (by decide) rfl rfl).1,
   (planApplyIter_skip_empty serverTest planEvictOnly (PlanResult.mk [] [] 0 0)
      (by decide) rfl rfl).2.1,
   (planApplyIter_skip_empty serverTest planEvictOnly (PlanResult.mk [] [] 0 0)
      (by decide) rfl rfl).2.2 (fun _ => none)⟩

/-- Code bug exhibited for C1: with `AllAtOnce = true`, node `A` accepted
first and node `B` then failing the fit check, `evaluatePlan` returns a
result that still carries `A`'s placements — not the empty `NodeEvict` and
`NodeAllocation` the all-at-once contract requires — and `planApply` would
go on to commit that partial work. -/
theorem evaluatePlan_allAtOnce_partial_result :
    planAllAtOnce.allAtOnce = true ∧
    fitTest ⟨"B", 5⟩ (proposedAllocs [⟨"b1", 3⟩]
      ((assocLookup planAllAtOnce.nodeEvict "B").getD [])
      [⟨"b2", 3⟩, ⟨"b3", 3⟩]) = false ∧
    evaluatePlan serverTest planAllAtOnce =
      (some { nodeEvict := [],
              nodeAllocation := [("A", [⟨"a1", 4⟩, ⟨"a2", 4⟩])],
              refreshIndex := 5, allocIndex := 0 }, none) ∧
    ([("A", [(⟨"a1", 4⟩ : Allocation), ⟨"a2", 4⟩])] :
      List (String × List Allocation)) ≠ [] := by
  refine ⟨rfl, by decide, by decide, by decide⟩

/-- Counterexample to C3 as stated: in `planEvictOnly` the fit predicate
accepts every node of `NodeAllocation`, yet the result omits the
empty-list entry for `A` and drops the eviction-only entry for `X`, so
neither result map equals its plan counterpart. -/
theorem evaluatePlan_round_trip_cex :
    fitTest ⟨"A", 10⟩ (proposedAllocs []
      ((assocLookup planEvictOnly.nodeEvict "A").getD []) []) = true ∧
    evaluatePlan serverTest planEvictOnly =
      (some { nodeEvict := [], nodeAllocation := [],
              refreshIndex := 0, allocIndex := 0 }, none) ∧
    ([] : List (String × List Allocation)) ≠ planEvictOnly.nodeAllocation ∧
    ([] : List (String × List String)) ≠ planEvictOnly.nodeEvict := by
  refine ⟨by decide, by decide, by decide, by decide⟩

/-- Claim C8: each loop iteration of the applier makes exactly one `respond`
call for the dequeued plan, and that single response is either `(nil, err)`
(evaluation or consensus failure) or `(result, nil)` — never zero responses
and never two. -/
theorem planApplyIter_respond_once (s : Server) (plan : Plan) :
    (planApplyIter s plan).length = 1 ∧
    ((planApplyIter s plan).all fun resp =>
      (resp.1.isNone && resp.2.isSome) || (resp.1.isSome && resp.2.isNone)) = true := by
  rcases evaluatePlan_shape s plan with ⟨r, hr⟩ | ⟨e, he⟩
  · simp only [planApplyIter, hr]
    by_cases hne : r.nodeEvict.length ≠ 0 ∨ r.nodeAllocation.length ≠ 0
    · simp only [hne, if_true]
      cases happly : applyPlan s r with
      | none => simp
      | some allocIndex => simp
    · simp only [hne, if_false]
      simp
  · simp only [planApplyIter, he]
    simp

